import Mathlib

/-!
Shallow embedding of the deicer repository (src/deicer.py, src/src/GlacierWrapper.py):
an AWS Glacier decommissioning tool built around a persistent state mapping from
vault names to per-vault workflow records.

Modelling conventions:
- Python dicts parsed from JSON are modelled by the inductive `Json`; the state
  mapping kept by `GlacierStateManager` is an insertion-ordered association list
  (`StateMap`), matching Python dict semantics (assignment to an existing key keeps
  its position, a new key is appended).
- `datetime` instants are modelled as integers (seconds on the UTC timeline).
  `datetime.isoformat` and `datetime.fromisoformat` are mutually inverse between
  instants and their ISO-8601 renderings, so the model identifies the stored
  `job_updated` string with the instant it denotes; its JSON rendering is `Json.num`.
  An isoformat string is never empty, so Python truthiness of the stored value is
  `Option.isSome`.
- Remote API calls (boto3) are oracles passed in as functions returning
  `Except ClientError _`; `ClientError` is the one exception class the code catches.
  Exceptions of other classes (for example `json.JSONDecodeError` raised by
  `json.loads`, or `AttributeError` / `TypeError` / `KeyError` raised while picking
  the manifest apart) are NOT caught by the code and are modelled by `PyExn` values
  that abort the surrounding loop; functions that can let one escape return an
  `Option PyExn` next to the state reached at the point of the raise (each mutation
  is saved immediately, so state mutated before the raise persists).
- `save_state` writes `json.dump(self.state, f)`; each mutation helper calls it
  once.  The `Manager` structure counts those file writes in `saves`, so that
  "nothing is written" is observable as an unchanged counter.
-/

namespace Deicer

/-- JSON values as produced by the json module on this repository inputs
(floating point numbers never occur in the state file this code writes). -/
inductive Json where
  | null : Json
  | bool : Bool → Json
  | num : Int → Json
  | str : String → Json
  | arr : List Json → Json
  | obj : List (String × Json) → Json
deriving Repr

/-- Lookup of a key in a JSON object body (first binding wins, as in a dict). -/
def dictGet (kvs : List (String × Json)) (k : String) : Option Json :=
  (kvs.find? (fun p => p.1 == k)).map (fun p => p.2)

/-- One entry of the archive list stored in a record: the dict
`{"id": archive["ArchiveId"], "description": archive.get("ArchiveDescription", ""),
"size": archive["Size"]}` built by `GlacierCleanup.get_job_output`. Python stores
whatever JSON values the manifest held, so the fields are dynamically typed. -/
structure ArchiveRef where
  id : Json
  description : Json
  size : Json
deriving Repr

/-- One vault record of the state mapping, as created by
`GlacierStateManager.add_vault`: `{"job_id": None, "status": None,
"job_updated": None, "archives": []}`.  `status` is `None` (not started) or one of
the strings "in-progress", "complete", "error", "pending_deletion". -/
structure VaultRecord where
  job_id : Option String
  status : Option String
  job_updated : Option Int
  archives : List ArchiveRef
deriving Repr

/-- The state mapping: vault name to record, in insertion order. -/
abbrev StateMap := List (String × VaultRecord)

/-- Python truthiness of an optional string (`None` and `""` are falsy). -/
def pyTruthy : Option String → Bool
  | none => false
  | some s => !(s == "")

/-- Lookup of a vault record by name (`self.state[vault_id]` / `in` test). -/
def lookupVault (s : StateMap) (v : String) : Option VaultRecord :=
  (s.find? (fun p => p.1 == v)).map (fun p => p.2)

/-- Assignment `self.state[vault_id] = r`: replace in place when the key exists,
append otherwise (Python dict semantics). -/
def setVault : StateMap → String → VaultRecord → StateMap
  | [], v, r => [(v, r)]
  | (k, r0) :: rest, v, r =>
      if k == v then (v, r) :: rest else (k, r0) :: setVault rest v r

/-- The in-memory state of `GlacierStateManager` plus the number of
`save_state` calls performed (file writes). -/
structure Manager where
  state : StateMap
  saves : Nat
deriving Repr

/-- The fresh record built by `add_vault`. -/
def emptyRecord : VaultRecord :=
  { job_id := none, status := none, job_updated := none, archives := [] }

/-- `GlacierStateManager.add_vault`: create a fresh record (and save) only when
the vault is not yet tracked. -/
def add_vault (m : Manager) (vault_id : String) : Manager :=
  if (lookupVault m.state vault_id).isSome then m
  else { state := m.state ++ [(vault_id, emptyRecord)], saves := m.saves + 1 }

/-- `GlacierStateManager.update_vault_job`: when the vault is tracked, overwrite
job_id and status, stamp job_updated with the current UTC time, and save.
Absent vault: no mutation, no save. -/
def update_vault_job (m : Manager) (vault_id : String) (job_id : Option String)
    (status : String) (now : Int) : Manager :=
  match lookupVault m.state vault_id with
  | some r =>
      { state := setVault m.state vault_id
          { r with job_id := job_id, status := some status, job_updated := some now },
        saves := m.saves + 1 }
  | none => m

/-- `GlacierStateManager.update_vault_archives`: when the vault is tracked,
overwrite the archive list and save. Absent vault: no mutation, no save. -/
def update_vault_archives (m : Manager) (vault_id : String)
    (archives : List ArchiveRef) : Manager :=
  match lookupVault m.state vault_id with
  | some r =>
      { state := setVault m.state vault_id { r with archives := archives },
        saves := m.saves + 1 }
  | none => m

/-- `GlacierStateManager.load_state`. The file system argument is
`none` when the state file does not exist, `some none` when it exists but
`json.load` raises `JSONDecodeError`, and `some (some j)` when it parses to `j`.
The decode error is caught: the function logs and returns `{}` instead of raising,
which is why it is total here. -/
def load_state (file : Option (Option Json)) : Json :=
  match file with
  | none => Json.obj []
  | some none => Json.obj []
  | some (some j) => j

/-- JSON rendering of an optional string field (`None` becomes `null`). -/
def encodeOptStr : Option String → Json
  | none => Json.null
  | some s => Json.str s

/-- Typed reading of an optional string field back from JSON. -/
def decodeOptStr : Json → Option (Option String)
  | Json.null => some none
  | Json.str s => some (some s)
  | _ => none

/-- JSON rendering of the optional job_updated instant (an ISO-8601 string in the
file, identified with the instant it denotes). -/
def encodeOptTime : Option Int → Json
  | none => Json.null
  | some t => Json.num t

/-- Typed reading of the optional job_updated instant back from JSON. -/
def decodeOptTime : Json → Option (Option Int)
  | Json.null => some none
  | Json.num t => some (some t)
  | _ => none

/-- JSON rendering of one archive entry dict. -/
def encodeArchive (a : ArchiveRef) : Json :=
  Json.obj [("id", a.id), ("description", a.description), ("size", a.size)]

/-- Typed reading of one archive entry dict back from JSON. -/
def decodeArchive (j : Json) : Option ArchiveRef :=
  match j with
  | Json.obj kvs =>
      match dictGet kvs "id", dictGet kvs "description", dictGet kvs "size" with
      | some i, some d, some s => some { id := i, description := d, size := s }
      | _, _, _ => none
  | _ => none

/-- JSON rendering of one vault record dict (the shape every record of this
program has: exactly the four keys created by `add_vault`). -/
def encodeRecord (r : VaultRecord) : Json :=
  Json.obj [("job_id", encodeOptStr r.job_id),
            ("status", encodeOptStr r.status),
            ("job_updated", encodeOptTime r.job_updated),
            ("archives", Json.arr (r.archives.map encodeArchive))]

/-- Typed reading of a list of archive entry dicts back from JSON. -/
def decodeArchiveList : List Json → Option (List ArchiveRef)
  | [] => some []
  | j :: js =>
      match decodeArchive j, decodeArchiveList js with
      | some a, some l => some (a :: l)
      | _, _ => none

/-- Typed reading of one vault record dict back from JSON. -/
def decodeRecord (j : Json) : Option VaultRecord :=
  match j with
  | Json.obj kvs =>
      match dictGet kvs "job_id", dictGet kvs "status",
            dictGet kvs "job_updated", dictGet kvs "archives" with
      | some jv, some sv, some uv, some (Json.arr av) =>
          match decodeOptStr jv, decodeOptStr sv, decodeOptTime uv,
                decodeArchiveList av with
          | some j0, some s0, some u0, some a0 =>
              some { job_id := j0, status := s0, job_updated := u0, archives := a0 }
          | _, _, _, _ => none
      | _, _, _, _ => none
  | _ => none

/-- `GlacierStateManager.save_state`: the JSON document `json.dump` persists for
the current mapping. -/
def save_state (s : StateMap) : Json :=
  Json.obj (s.map (fun kv => (kv.1, encodeRecord kv.2)))

/-- Typed reading of the entries of a persisted state object back from JSON. -/
def decodeEntries : List (String × Json) → Option StateMap
  | [] => some []
  | kv :: rest =>
      match decodeRecord kv.2, decodeEntries rest with
      | some r, some l => some ((kv.1, r) :: l)
      | _, _ => none

/-- Typed reading of a whole persisted state mapping back from JSON. -/
def decodeState (j : Json) : Option StateMap :=
  match j with
  | Json.obj kvs => decodeEntries kvs
  | _ => none

/-- The one exception class the code catches around remote calls (botocore
ClientError), carrying its message. -/
abbrev ClientError := String

/-- Exception classes the code does NOT catch, raised while handling a completed
job output: `json.JSONDecodeError` from `json.loads`, `AttributeError` from
calling `.get` on a non-dict, `TypeError` from iterating or subscripting a value
of the wrong shape, `KeyError` from a missing manifest key. -/
inductive PyExn where
  | jsonDecodeError : PyExn
  | attributeError : PyExn
  | typeError : PyExn
  | keyError : PyExn
deriving DecidableEq, Repr

/-- `GlacierCleanup.list_vaults`: walk every page of the vault listing, register
each vault name in the store, and return all names seen. A ClientError while
paginating is logged and re-raised, aborting the scan, which the caller models
by passing only successfully fetched pages. -/
def list_vaults (pages : List (List String)) (m : Manager) : Manager × List String :=
  pages.foldl
    (fun acc page =>
      page.foldl (fun acc2 vault_name => (add_vault acc2.1 vault_name, acc2.2 ++ [vault_name])) acc)
    (m, [])

/-- Selection guard of `GlacierCleanup.initiate_inventory_jobs`:
`if not vault_data["job_id"] or vault_data["status"] in ["error", "complete"]`. -/
def initSelects (r : VaultRecord) : Bool :=
  !pyTruthy r.job_id || r.status == some "error" || r.status == some "complete"

/-- One loop iteration of `initiate_inventory_jobs` for the key `vault_id`:
read the current record, and when selected submit a job; on success record
`(job_id, "in-progress")`, on ClientError record `(None, "error")` and continue. -/
def initStep (api : String → Except ClientError String) (now : Int)
    (m : Manager) (vault_id : String) : Manager :=
  match lookupVault m.state vault_id with
  | none => m
  | some vd =>
      if initSelects vd then
        match api vault_id with
        | Except.ok job_id => update_vault_job m vault_id (some job_id) "in-progress" now
        | Except.error _ => update_vault_job m vault_id none "error" now
      else m

/-- The `for vault_id, vault_data in self.state_manager.state.items()` loop of
`initiate_inventory_jobs`, over a fixed key list (updates never add or drop keys). -/
def initGo (api : String → Except ClientError String) (now : Int) :
    List String → Manager → Manager
  | [], m => m
  | k :: ks, m => initGo api now ks (initStep api now m k)

/-- `GlacierCleanup.initiate_inventory_jobs`. -/
def initiate_inventory_jobs (api : String → Except ClientError String) (now : Int)
    (m : Manager) : Manager :=
  initGo api now (m.state.map (fun p => p.1)) m

/-- `inventory.get("ArchiveList", [])`: dict lookup with default on a JSON value;
`.get` on anything that is not a dict raises AttributeError (uncaught). -/
def pyGetDefault (j : Json) (k : String) (d : Json) : Except PyExn Json :=
  match j with
  | Json.obj kvs => Except.ok ((dictGet kvs k).getD d)
  | _ => Except.error PyExn.attributeError

/-- Python iteration `for archive in x` over a JSON value: a list yields its
elements, a dict its keys, a string its characters; anything else raises
TypeError (uncaught). -/
def pyIter : Json → Except PyExn (List Json)
  | Json.arr xs => Except.ok xs
  | Json.obj kvs => Except.ok (kvs.map (fun p => Json.str p.1))
  | Json.str s => Except.ok (s.data.map (fun c => Json.str (String.singleton c)))
  | _ => Except.error PyExn.typeError

/-- One element of the archive comprehension in `get_job_output`:
`archive["ArchiveId"]` (KeyError when missing), `archive.get("ArchiveDescription", "")`,
`archive["Size"]` (KeyError when missing); subscripting a non-dict raises TypeError. -/
def parseArchive (j : Json) : Except PyExn ArchiveRef :=
  match j with
  | Json.obj kvs =>
      match dictGet kvs "ArchiveId" with
      | none => Except.error PyExn.keyError
      | some i =>
          match dictGet kvs "Size" with
          | none => Except.error PyExn.keyError
          | some s =>
              Except.ok { id := i,
                          description := (dictGet kvs "ArchiveDescription").getD (Json.str ""),
                          size := s }
  | _ => Except.error PyExn.typeError

/-- The whole archive list comprehension; the first raised exception wins. -/
def parseArchives : List Json → Except PyExn (List ArchiveRef)
  | [] => Except.ok []
  | j :: js =>
      match parseArchive j with
      | Except.error e => Except.error e
      | Except.ok a =>
          match parseArchives js with
          | Except.error e => Except.error e
          | Except.ok as0 => Except.ok (a :: as0)

/-- `GlacierCleanup.get_job_output`. The oracle returns `Except.error` for a
ClientError from the remote fetch, `Except.ok none` when the body bytes are not
valid JSON (`json.loads` raises, outside the `except ClientError` clause), and
`Except.ok (some j)` for a body parsing to `j`. Returns the state reached and the
uncaught exception, if one escaped. -/
def get_job_output (output : String → String → Except ClientError (Option Json))
    (now : Int) (m : Manager) (vault_id job_id : String) : Manager × Option PyExn :=
  match output vault_id job_id with
  | Except.error _ => (update_vault_job m vault_id (some job_id) "error" now, none)
  | Except.ok none => (m, some PyExn.jsonDecodeError)
  | Except.ok (some inventory) =>
      match pyGetDefault inventory "ArchiveList" (Json.arr []) with
      | Except.error e => (m, some e)
      | Except.ok lst =>
          match pyIter lst with
          | Except.error e => (m, some e)
          | Except.ok items =>
              match parseArchives items with
              | Except.error e => (m, some e)
              | Except.ok archives =>
                  (update_vault_job
                     (update_vault_archives m vault_id archives)
                     vault_id (some job_id) "complete" now,
                   none)

/-- One loop iteration of `GlacierCleanup.check_job_status` for the key
`vault_id`: guard `status == "in-progress" and job_id`; describe the job
(ClientError there records `(job_id, "error")` and moves on); otherwise refresh
`(job_id, "in-progress")` and, when completed, run `get_job_output`. -/
def checkStep (describe : String → String → Except ClientError Bool)
    (output : String → String → Except ClientError (Option Json)) (now : Int)
    (m : Manager) (vault_id : String) : Manager × Option PyExn :=
  match lookupVault m.state vault_id with
  | none => (m, none)
  | some vd =>
      if vd.status == some "in-progress" && pyTruthy vd.job_id then
        let job_id := vd.job_id.getD ""
        match describe vault_id job_id with
        | Except.error _ => (update_vault_job m vault_id (some job_id) "error" now, none)
        | Except.ok completed =>
            let m2 := update_vault_job m vault_id (some job_id) "in-progress" now
            if completed then get_job_output output now m2 vault_id job_id
            else (m2, none)
      else (m, none)

/-- The polling loop of `check_job_status`; an uncaught exception from
`get_job_output` aborts the remaining iterations (and the whole invocation),
keeping the state mutations already saved. -/
def checkGo (describe : String → String → Except ClientError Bool)
    (output : String → String → Except ClientError (Option Json)) (now : Int) :
    List String → Manager → Manager × Option PyExn
  | [], m => (m, none)
  | k :: ks, m =>
      match checkStep describe output now m k with
      | (m2, some e) => (m2, some e)
      | (m2, none) => checkGo describe output now ks m2

/-- `GlacierCleanup.check_job_status`. -/
def check_job_status (describe : String → String → Except ClientError Bool)
    (output : String → String → Except ClientError (Option Json)) (now : Int)
    (m : Manager) : Manager × Option PyExn :=
  checkGo describe output now (m.state.map (fun p => p.1)) m

/-- Remote destructive calls the Destroyer can make, as an observable trace.
`delete_vault_contents` only ever emits `deleteArchive` calls; `deleteVault` and
`sleepSeconds` are emitted by no function of this repository (see the claims on
the Destroyer). -/
inductive ApiCall where
  | deleteArchive : String → Json → ApiCall
  | deleteVault : String → ApiCall
  | sleepSeconds : Int → ApiCall
deriving Repr

/-- Recognizer for a vault-deletion attempt in a trace. -/
def isVaultDeletion : ApiCall → Bool
  | ApiCall.deleteVault _ => true
  | _ => false

/-- Recognizer for a backoff sleep in a trace. -/
def isSleep : ApiCall → Bool
  | ApiCall.sleepSeconds _ => true
  | _ => false

/-- Selection guard of `GlacierCleanup.process_completed_jobs`:
`status == "complete" and job_updated` and then
`(current_time - job_time).total_seconds() / 3600 >= 24` (the stored isoformat
string is never empty, so its truthiness is presence). -/
def gateSelects (now : Int) (r : VaultRecord) : Bool :=
  if r.status == some "complete" then
    match r.job_updated with
    | some t => decide ((((now - t : Int) : ℚ) / 3600) ≥ 24)
    | none => false
  else false

/-- `GlacierCleanup.delete_vault_contents`: attempt to delete every archive of
the record (each ClientError is caught, logged and skipped, so the state effect
does not depend on the outcomes), then mark the record
`(None, "pending_deletion")`. The function deletes no vault, sleeps nowhere and
performs no retry; the trace of remote calls it makes is returned. -/
def delete_vault_contents (now : Int) (m : Manager) (vault_id : String)
    (archives : List ArchiveRef) : Manager × List ApiCall :=
  (update_vault_job m vault_id none "pending_deletion" now,
   archives.map (fun a => ApiCall.deleteArchive vault_id a.id))

/-- One loop iteration of `process_completed_jobs` for the key `vault_id`. -/
def processStep (now : Int) (mt : Manager × List ApiCall) (vault_id : String) :
    Manager × List ApiCall :=
  match lookupVault mt.1.state vault_id with
  | none => mt
  | some vd =>
      if gateSelects now vd then
        let r := delete_vault_contents now mt.1 vault_id vd.archives
        (r.1, mt.2 ++ r.2)
      else mt

/-- The retention loop of `process_completed_jobs`. -/
def processGo (now : Int) : List String → Manager × List ApiCall → Manager × List ApiCall
  | [], mt => mt
  | k :: ks, mt => processGo now ks (processStep now mt k)

/-- `GlacierCleanup.process_completed_jobs` (Retention Gate plus Destroyer),
also returning the trace of destructive remote calls made. -/
def process_completed_jobs (now : Int) (m : Manager) : Manager × List ApiCall :=
  processGo now (m.state.map (fun p => p.1)) (m, [])

/-- `GlacierWrapper.delete_vault` (src/src/GlacierWrapper.py): one single
`vault.delete()` call; a ClientError is logged and re-raised. No retry, no wait.
The oracle argument is the outcome of that one call; returned are the trace of
calls made and the propagated outcome. -/
def GlacierWrapper.delete_vault (result : Except ClientError Unit) (name : String) :
    List ApiCall × Except ClientError Unit :=
  ([ApiCall.deleteVault name], result)

/-- One stage operation of the orchestrator, with its remote oracles. -/
inductive StageOp where
  | scan : List (List String) → StageOp
  | initiate : (String → Except ClientError String) → Int → StageOp
  | poll : (String → String → Except ClientError Bool) →
           (String → String → Except ClientError (Option Json)) → Int → StageOp
  | destroy : Int → StageOp

/-- Apply one stage operation to the store state. -/
def applyOp (m : Manager) : StageOp → Manager
  | StageOp.scan pages => (list_vaults pages m).1
  | StageOp.initiate api now => initiate_inventory_jobs api now m
  | StageOp.poll d o now => (check_job_status d o now m).1
  | StageOp.destroy now => (process_completed_jobs now m).1

/-- The empty campaign (fresh state file). -/
def emptyManager : Manager := { state := [], saves := 0 }

/-- Run a sequence of stage operations from the empty campaign. -/
def runOps (ops : List StageOp) : Manager :=
  ops.foldl applyOp emptyManager

/-- A store state reachable by some sequence of stage operations. -/
def Reachable (m : Manager) : Prop :=
  ∃ ops : List StageOp, runOps ops = m

/-- The job-ownership invariant that actually holds on this code: a record in
status "in-progress" or "complete" always carries a job id, and a job id is
only ever carried in statuses "in-progress", "complete" or "error". -/
def JobInv (m : Manager) : Prop :=
  ∀ p ∈ m.state,
    ((p.2.status = some "in-progress" ∨ p.2.status = some "complete") →
        p.2.job_id ≠ none) ∧
    (p.2.job_id ≠ none →
        (p.2.status = some "in-progress" ∨ p.2.status = some "complete" ∨
         p.2.status = some "error"))

/-- Integer form of the retention guard: selecting on elapsed seconds.  Proved
equal to `gateSelects` below (`(x / 3600 : ℚ) ≥ 24` iff `86400 ≤ x`); used to
evaluate the gate on concrete inputs. -/
def gateSelectsInt (now : Int) (r : VaultRecord) : Bool :=
  if r.status == some "complete" then
    match r.job_updated with
    | some t => decide (86400 ≤ now - t)
    | none => false
  else false

/-- The record transition `initiate_inventory_jobs` applies to a selected
record, as a function of the submission outcome. -/
def initTransition (outcome : Except ClientError String) (now : Int)
    (r : VaultRecord) : VaultRecord :=
  match outcome with
  | Except.ok j =>
      { r with job_id := some j, status := some "in-progress", job_updated := some now }
  | Except.error _ =>
      { r with job_id := none, status := some "error", job_updated := some now }

/-! Basic lemmas about the store operations. -/

theorem mem_setVault {s : StateMap} {v : String} {r : VaultRecord}
    {p : String × VaultRecord} (h : p ∈ setVault s v r) : p = (v, r) ∨ p ∈ s := by
  induction s with
  | nil => simpa [setVault] using h
  | cons hd tl ih =>
      obtain ⟨k, r0⟩ := hd
      by_cases hk : (k == v) = true
      · simp only [setVault, hk, if_true] at h
        rcases List.mem_cons.mp h with h1 | h1
        · exact Or.inl h1
        · exact Or.inr (List.mem_cons_of_mem _ h1)
      · simp only [setVault, hk, if_false] at h
        rcases List.mem_cons.mp h with h1 | h1
        · exact Or.inr (h1 ▸ List.mem_cons_self _ _)
        · rcases ih h1 with h2 | h2
          · exact Or.inl h2
          · exact Or.inr (List.mem_cons_of_mem _ h2)

theorem lookup_setVault_self (s : StateMap) (v : String) (r : VaultRecord) :
    lookupVault (setVault s v r) v = some r := by
  induction s with
  | nil => simp [setVault, lookupVault, List.find?]
  | cons hd tl ih =>
      obtain ⟨k, r0⟩ := hd
      by_cases hk : (k == v) = true
      · simp [setVault, hk, lookupVault, List.find?]
      · simp only [setVault, hk, if_false]
        simpa [lookupVault, List.find?, hk] using ih

theorem lookup_setVault_other {s : StateMap} {v w : String} (r : VaultRecord)
    (h : (w == v) = false) :
    lookupVault (setVault s v r) w = lookupVault s w := by
  induction s with
  | nil =>
      have hv : (v == w) = false := by
        rcases Bool.eq_false_iff.mp h with _
        exact beq_eq_false_iff_ne.mpr fun hvw =>
          (beq_eq_false_iff_ne.mp h) hvw.symm
      simp [setVault, lookupVault, List.find?, hv]
  | cons hd tl ih =>
      obtain ⟨k, r0⟩ := hd
      by_cases hk : (k == v) = true
      · have hv : (v == w) = false := beq_eq_false_iff_ne.mpr fun hvw =>
          (beq_eq_false_iff_ne.mp h) hvw.symm
        have hkeq : k = v := beq_iff_eq.mp hk
        subst hkeq
        simp [setVault, lookupVault, List.find?, hv]
      · simp only [setVault, hk, if_false]
        by_cases hkw : (k == w) = true
        · simp [lookupVault, List.find?, hkw]
        · simpa [lookupVault, List.find?, hkw] using ih

theorem lookup_update_job_other {m : Manager} {v w : String} (h : (w == v) = false)
    (j : Option String) (s : String) (t : Int) :
    lookupVault (update_vault_job m v j s t).state w = lookupVault m.state w := by
  unfold update_vault_job
  cases hl : lookupVault m.state v with
  | none => rfl
  | some r => simpa using lookup_setVault_other _ h

theorem lookup_update_job_self {m : Manager} {v : String} {r : VaultRecord}
    (h : lookupVault m.state v = some r) (j : Option String) (s : String) (t : Int) :
    lookupVault (update_vault_job m v j s t).state v =
      some { r with job_id := j, status := some s, job_updated := some t } := by
  unfold update_vault_job
  rw [h]
  simpa using lookup_setVault_self m.state v _

theorem lookup_update_archives_other {m : Manager} {v w : String}
    (h : (w == v) = false) (archives : List ArchiveRef) :
    lookupVault (update_vault_archives m v archives).state w = lookupVault m.state w := by
  unfold update_vault_archives
  cases hl : lookupVault m.state v with
  | none => rfl
  | some r => simpa using lookup_setVault_other _ h

theorem lookup_found_mem {s : StateMap} {v : String} {r : VaultRecord}
    (h : lookupVault s v = some r) : ∃ q ∈ s, q.1 = v ∧ q.2 = r := by
  unfold lookupVault at h
  cases hf : s.find? (fun p => p.1 == v) with
  | none => rw [hf] at h; exact absurd h (by simp)
  | some q =>
      rw [hf] at h
      refine ⟨q, List.mem_of_find?_eq_some hf, ?_, by simpa using h⟩
      have := List.find?_some hf
      exact beq_iff_eq.mp (by simpa using this)

/-! The retention guard over ℚ agrees with the integer-seconds guard. -/

theorem gate_hours_iff (now t : Int) :
    ((((now - t : Int) : ℚ) / 3600) ≥ 24) ↔ 86400 ≤ now - t := by
  rw [ge_iff_le, le_div_iff₀ (by norm_num : (0 : ℚ) < 3600)]
  rw [show (24 : ℚ) * 3600 = ((86400 : Int) : ℚ) by norm_num]
  exact Int.cast_le

theorem gateSelects_eq_int (now : Int) (r : VaultRecord) :
    gateSelects now r = gateSelectsInt now r := by
  unfold gateSelects gateSelectsInt
  cases hu : r.job_updated with
  | none => rfl
  | some t =>
      by_cases hs : (r.status == some "complete") = true
      · simp only [hs, if_true]
        exact decide_eq_decide.mpr (gate_hours_iff now t)
      · simp [hs]

/-! Preservation of the job-ownership invariant by every store mutation. -/

theorem jobInv_update {m : Manager} (h : JobInv m) {v : String} {j : Option String}
    {s : String} (t : Int)
    (hg1 : (s = "in-progress" ∨ s = "complete") → j ≠ none)
    (hg2 : j ≠ none → (s = "in-progress" ∨ s = "complete" ∨ s = "error")) :
    JobInv (update_vault_job m v j s t) := by
  unfold update_vault_job
  cases hl : lookupVault m.state v with
  | none => exact h
  | some r =>
      intro p hp
      rcases mem_setVault hp with rfl | hpm
      · refine ⟨fun hst => ?_, fun hj => ?_⟩
        · apply hg1
          rcases hst with h1 | h1
          · exact Or.inl (Option.some.inj h1)
          · exact Or.inr (Option.some.inj h1)
        · rcases hg2 hj with h1 | h1 | h1
          · exact Or.inl (by rw [h1])
          · exact Or.inr (Or.inl (by rw [h1]))
          · exact Or.inr (Or.inr (by rw [h1]))
      · exact h p hpm

theorem jobInv_update_archives {m : Manager} (h : JobInv m) {v : String}
    (archives : List ArchiveRef) :
    JobInv (update_vault_archives m v archives) := by
  unfold update_vault_archives
  cases hl : lookupVault m.state v with
  | none => exact h
  | some r =>
      intro p hp
      rcases mem_setVault hp with rfl | hpm
      · obtain ⟨q, hq, hq1, hq2⟩ := lookup_found_mem hl
        have hqi := h q hq
        rw [hq2] at hqi
        exact hqi
      · exact h p hpm

theorem jobInv_add_vault {m : Manager} (h : JobInv m) (v : String) :
    JobInv (add_vault m v) := by
  unfold add_vault
  split
  · exact h
  · intro p hp
    rcases List.mem_append.mp hp with hpm | hpe
    · exact h p hpm
    · have hpe2 : p = (v, emptyRecord) := by simpa using hpe
      subst hpe2
      refine ⟨fun hst => ?_, fun hj => ?_⟩
      · rcases hst with h1 | h1 <;> exact absurd h1 (by simp [emptyRecord])
      · exact absurd rfl hj

theorem jobInv_initStep {m : Manager} (h : JobInv m)
    (api : String → Except ClientError String) (now : Int) (v : String) :
    JobInv (initStep api now m v) := by
  unfold initStep
  split
  · exact h
  · split
    · split
      · exact jobInv_update h now (fun _ => Option.some_ne_none _)
          (fun _ => Or.inl rfl)
      · exact jobInv_update h now
          (fun hc => by rcases hc with hc | hc <;> simp at hc)
          (fun hj => absurd rfl hj)
    · exact h

theorem jobInv_initGo {m : Manager} (h : JobInv m)
    (api : String → Except ClientError String) (now : Int) (ks : List String) :
    JobInv (initGo api now ks m) := by
  induction ks generalizing m with
  | nil => exact h
  | cons k ks ih => exact ih (jobInv_initStep h api now k)

theorem jobInv_get_job_output {m : Manager} (h : JobInv m)
    (output : String → String → Except ClientError (Option Json)) (now : Int)
    (v jid : String) :
    JobInv (get_job_output output now m v jid).1 := by
  unfold get_job_output
  split
  · exact jobInv_update h now (fun _ => Option.some_ne_none _)
      (fun _ => Or.inr (Or.inr rfl))
  · exact h
  · split
    · exact h
    · split
      · exact h
      · split
        · exact h
        · exact jobInv_update (jobInv_update_archives h _) now
            (fun _ => Option.some_ne_none _)
            (fun _ => Or.inr (Or.inl rfl))

theorem jobInv_checkStep {m : Manager} (h : JobInv m)
    (describe : String → String → Except ClientError Bool)
    (output : String → String → Except ClientError (Option Json)) (now : Int)
    (v : String) :
    JobInv (checkStep describe output now m v).1 := by
  unfold checkStep
  split
  · exact h
  · split
    · dsimp only
      split
      · exact jobInv_update h now (fun _ => Option.some_ne_none _)
          (fun _ => Or.inr (Or.inr rfl))
      · split
        · exact jobInv_get_job_output
            (jobInv_update h now (fun _ => Option.some_ne_none _)
              (fun _ => Or.inl rfl)) output now v _
        · exact jobInv_update h now (fun _ => Option.some_ne_none _)
            (fun _ => Or.inl rfl)
    · exact h

theorem jobInv_checkGo {m : Manager} (h : JobInv m)
    (describe : String → String → Except ClientError Bool)
    (output : String → String → Except ClientError (Option Json)) (now : Int)
    (ks : List String) :
    JobInv (checkGo describe output now ks m).1 := by
  induction ks generalizing m with
  | nil => exact h
  | cons k ks ih =>
      have hs := jobInv_checkStep h describe output now k
      unfold checkGo
      cases hc : checkStep describe output now m k with
      | mk m2 e =>
          rw [hc] at hs
          cases e with
          | none => exact ih hs
          | some e0 => exact hs

theorem jobInv_processStep {mt : Manager × List ApiCall} (h : JobInv mt.1)
    (now : Int) (v : String) :
    JobInv (processStep now mt v).1 := by
  unfold processStep
  split
  · exact h
  · split
    · exact jobInv_update h now
        (fun hc => by rcases hc with hc | hc <;> simp at hc)
        (fun hj => absurd rfl hj)
    · exact h

theorem jobInv_processGo {mt : Manager × List ApiCall} (h : JobInv mt.1)
    (now : Int) (ks : List String) :
    JobInv (processGo now ks mt).1 := by
  induction ks generalizing mt with
  | nil => exact h
  | cons k ks ih => exact ih (jobInv_processStep h now k)

theorem jobInv_scanPage {acc : Manager × List String} (h : JobInv acc.1)
    (page : List String) :
    JobInv (page.foldl
      (fun acc2 vault_name => (add_vault acc2.1 vault_name, acc2.2 ++ [vault_name]))
      acc).1 := by
  induction page generalizing acc with
  | nil => exact h
  | cons n page ih => exact ih (jobInv_add_vault h n)

theorem jobInv_list_vaults {m : Manager} (h : JobInv m)
    (pages : List (List String)) :
    JobInv (list_vaults pages m).1 := by
  unfold list_vaults
  suffices hgen : ∀ acc : Manager × List String, JobInv acc.1 →
      JobInv (pages.foldl
        (fun acc page => page.foldl
          (fun acc2 vault_name => (add_vault acc2.1 vault_name, acc2.2 ++ [vault_name]))
          acc) acc).1 by
    exact hgen (m, []) h
  induction pages with
  | nil => exact fun acc ha => ha
  | cons page pages ih => exact fun acc ha => ih _ (jobInv_scanPage ha page)

theorem jobInv_applyOp {m : Manager} (h : JobInv m) (op : StageOp) :
    JobInv (applyOp m op) := by
  cases op with
  | scan pages => exact jobInv_list_vaults h pages
  | initiate api now => exact jobInv_initGo h api now _
  | poll d o now => exact jobInv_checkGo h d o now _
  | destroy now => exact jobInv_processGo h now _

theorem jobInv_runOps (ops : List StageOp) : JobInv (runOps ops) := by
  unfold runOps
  suffices hgen : ∀ m : Manager, JobInv m → JobInv (ops.foldl applyOp m) by
    exact hgen emptyManager (fun p hp => absurd hp (by simp [emptyManager]))
  induction ops with
  | nil => exact fun m hm => hm
  | cons op ops ih => exact fun m hm => ih _ (jobInv_applyOp hm op)

/-! Frame lemmas: each loop iteration touches only its own key. -/

theorem initStep_other {m : Manager} {k w : String} (h : (w == k) = false)
    (api : String → Except ClientError String) (now : Int) :
    lookupVault (initStep api now m k).state w = lookupVault m.state w := by
  unfold initStep
  split
  · rfl
  · split
    · split
      · exact lookup_update_job_other h _ _ _
      · exact lookup_update_job_other h _ _ _
    · rfl

theorem initGo_other_keys {v : String} {ks : List String}
    (h : ∀ k ∈ ks, (v == k) = false)
    (api : String → Except ClientError String) (now : Int) :
    ∀ {m : Manager}, lookupVault (initGo api now ks m).state v = lookupVault m.state v := by
  induction ks with
  | nil => intro m; rfl
  | cons k ks ih =>
      intro m
      rw [initGo]
      rw [ih (fun k2 hk2 => h k2 (List.mem_cons_of_mem _ hk2))]
      exact initStep_other (h k (List.mem_cons_self _ _)) _ _

theorem initGo_append (api : String → Except ClientError String) (now : Int)
    (l1 l2 : List String) (m : Manager) :
    initGo api now (l1 ++ l2) m = initGo api now l2 (initGo api now l1 m) := by
  induction l1 generalizing m with
  | nil => rfl
  | cons k l1 ih => rw [List.cons_append, initGo, initGo, ih]

theorem initStep_self {m : Manager} {v : String} {r : VaultRecord}
    (h : lookupVault m.state v = some r)
    (api : String → Except ClientError String) (now : Int) :
    lookupVault (initStep api now m v).state v =
      some (if initSelects r then initTransition (api v) now r else r) := by
  unfold initStep
  split
  · rename_i heq; rw [h] at heq; exact Option.noConfusion heq
  · rename_i vd heq
    have hvd : vd = r := by rw [h] at heq; exact (Option.some.inj heq).symm
    subst hvd
    split
    · rename_i hsel
      split
      · rename_i j hapi
        rw [lookup_update_job_self h, hapi]
        rfl
      · rename_i e hapi
        rw [lookup_update_job_self h, hapi]
        rfl
    · rename_i hsel
      exact h

theorem processStep_other {mt : Manager × List ApiCall} {k w : String}
    (h : (w == k) = false) (now : Int) :
    lookupVault (processStep now mt k).1.state w = lookupVault mt.1.state w := by
  unfold processStep
  split
  · rfl
  · split
    · exact lookup_update_job_other h _ _ _
    · rfl

theorem processGo_keeps {now : Int} {v : String} {r : VaultRecord}
    (hns : gateSelects now r = false) (ks : List String) :
    ∀ {mt : Manager × List ApiCall}, lookupVault mt.1.state v = some r →
      lookupVault (processGo now ks mt).1.state v = some r := by
  induction ks with
  | nil => exact fun h => h
  | cons k ks ih =>
      intro mt h
      rw [processGo]
      apply ih
      by_cases hkv : (v == k) = true
      · have hk : v = k := beq_iff_eq.mp hkv
        subst hk
        unfold processStep
        split
        · exact h
        · rename_i vd heq
          have hvd : vd = r := by rw [h] at heq; exact (Option.some.inj heq).symm
          subst hvd
          split
          · rename_i hsel; rw [hns] at hsel; exact Bool.noConfusion hsel
          · exact h
      · have hne : (v == k) = false := by simpa using hkv
        rw [processStep_other hne now]
        exact h

theorem processGo_other_keys {now : Int} {v : String} {ks : List String}
    (h : ∀ k ∈ ks, (v == k) = false) :
    ∀ {mt : Manager × List ApiCall},
      lookupVault (processGo now ks mt).1.state v = lookupVault mt.1.state v := by
  induction ks with
  | nil => intro mt; rfl
  | cons k ks ih =>
      intro mt
      rw [processGo]
      rw [ih (fun k2 hk2 => h k2 (List.mem_cons_of_mem _ hk2))]
      exact processStep_other (h k (List.mem_cons_self _ _)) now

theorem processGo_append (now : Int) (l1 l2 : List String)
    (mt : Manager × List ApiCall) :
    processGo now (l1 ++ l2) mt = processGo now l2 (processGo now l1 mt) := by
  induction l1 generalizing mt with
  | nil => rfl
  | cons k l1 ih => rw [List.cons_append, processGo, processGo, ih]

theorem processStep_self {mt : Manager × List ApiCall} {v : String} {r : VaultRecord}
    (h : lookupVault mt.1.state v = some r) {now : Int}
    (hsel : gateSelects now r = true) :
    lookupVault (processStep now mt v).1.state v =
      some { r with job_id := none, status := some "pending_deletion",
                    job_updated := some now } := by
  unfold processStep
  split
  · rename_i heq; rw [h] at heq; exact Option.noConfusion heq
  · rename_i vd heq
    have hvd : vd = r := by rw [h] at heq; exact (Option.some.inj heq).symm
    subst hvd
    split
    · exact lookup_update_job_self h _ _ _
    · rename_i hns; exact absurd hsel hns

/-! Splitting the key list of a mapping around a looked-up key. -/

theorem keys_split {m : Manager} {v : String} {r : VaultRecord}
    (hnd : (m.state.map (fun p => p.1)).Nodup)
    (h : lookupVault m.state v = some r) :
    ∃ l1 l2, m.state.map (fun p => p.1) = l1 ++ v :: l2 ∧
      (∀ k ∈ l1, (v == k) = false) ∧ (∀ k ∈ l2, (v == k) = false) := by
  obtain ⟨q, hq, hq1, hq2⟩ := lookup_found_mem h
  have hv : v ∈ m.state.map (fun p => p.1) := by
    subst hq1; exact List.mem_map_of_mem _ hq
  obtain ⟨l1, l2, hsplit⟩ := List.append_of_mem hv
  refine ⟨l1, l2, hsplit, ?_, ?_⟩
  · intro k hk
    rw [hsplit] at hnd
    have hdisj := (List.nodup_append.mp hnd).2.2
    have : v ≠ k := by
      intro hvk
      exact hdisj (hvk ▸ hk) (List.mem_cons_self _ _)
    exact beq_eq_false_iff_ne.mpr this
  · intro k hk
    rw [hsplit] at hnd
    have hvl2 : v ∉ l2 := (List.nodup_cons.mp (List.nodup_append.mp hnd).2.1).1
    have : v ≠ k := fun hvk => hvl2 (hvk ▸ hk)
    exact beq_eq_false_iff_ne.mpr this

/-! The Destroyer trace never contains a vault deletion or a sleep. -/

theorem processStep_trace {mt : Manager × List ApiCall} {now : Int} {k : String}
    {c : ApiCall} (h : c ∈ (processStep now mt k).2) :
    c ∈ mt.2 ∨ ∃ v a, c = ApiCall.deleteArchive v a := by
  unfold processStep at h
  split at h
  · exact Or.inl h
  · split at h
    · rcases List.mem_append.mp h with h1 | h1
      · exact Or.inl h1
      · obtain ⟨a, ha, hc⟩ := List.mem_map.mp h1
        exact Or.inr ⟨k, a.id, hc.symm⟩
    · exact Or.inl h

theorem processGo_trace {now : Int} {ks : List String} :
    ∀ {mt : Manager × List ApiCall} {c : ApiCall}, c ∈ (processGo now ks mt).2 →
      c ∈ mt.2 ∨ ∃ v a, c = ApiCall.deleteArchive v a := by
  induction ks with
  | nil => exact fun h => Or.inl h
  | cons k ks ih =>
      intro mt c h
      rw [processGo] at h
      rcases ih h with h1 | h1
      · exact processStep_trace h1
      · exact Or.inr h1

/-! Round trip of the persisted JSON representation. -/

theorem decodeArchive_encodeArchive (a : ArchiveRef) :
    decodeArchive (encodeArchive a) = some a := rfl

theorem decodeArchives_encode (l : List ArchiveRef) :
    decodeArchiveList (l.map encodeArchive) = some l := by
  induction l with
  | nil => rfl
  | cons a l ih => simp [decodeArchiveList, decodeArchive_encodeArchive, ih]

theorem decodeRecord_encodeRecord (r : VaultRecord) :
    decodeRecord (encodeRecord r) = some r := by
  obtain ⟨j, s, u, a⟩ := r
  cases j <;> cases s <;> cases u <;>
    simp [decodeRecord, encodeRecord, dictGet, encodeOptStr, decodeOptStr,
          encodeOptTime, decodeOptTime, decodeArchives_encode, List.find?]

theorem decodeState_save (s : StateMap) : decodeState (save_state s) = some s := by
  have hgen : ∀ l : StateMap,
      decodeEntries (l.map (fun kv => (kv.1, encodeRecord kv.2))) = some l := by
    intro l
    induction l with
    | nil => rfl
    | cons kv tl ih => simp [decodeEntries, decodeRecord_encodeRecord, ih]
  simpa [decodeState, save_state] using hgen s

/-! Claim theorems. -/

/-- C1: the claim describes a Destroyer that, after the archive loop, waits an
initial delay and attempts vault deletion up to R times with linear backoff,
transitioning to DELETED on success.  The code does none of this:
`delete_vault_contents` only marks the record "pending_deletion", the
retention-plus-destruction stage emits no vault-deletion call and no sleep on any
input, and `GlacierWrapper.delete_vault` makes exactly one deletion attempt with
no retry.  The last two conjuncts evaluate the stage at a concrete gated vault:
the record ends "pending_deletion" (never "deleted") and the whole trace is the
one archive deletion. -/
theorem c1_destroyer_never_deletes_vault :
    (∀ (now : Int) (m : Manager),
        ((process_completed_jobs now m).2.any isVaultDeletion = false) ∧
        ((process_completed_jobs now m).2.any isSleep = false)) ∧
    (∀ (result : Except ClientError Unit) (name : String),
        GlacierWrapper.delete_vault result name = ([ApiCall.deleteVault name], result)) ∧
    (process_completed_jobs 90000
        { state := [("gated-vault",
            { job_id := some "job-1", status := some "complete", job_updated := some 0,
              archives := [{ id := Json.str "a1", description := Json.str "",
                             size := Json.num 5 }] })],
          saves := 0 } =
      ({ state := [("gated-vault",
            { job_id := none, status := some "pending_deletion",
              job_updated := some 90000,
              archives := [{ id := Json.str "a1", description := Json.str "",
                             size := Json.num 5 }] })],
          saves := 1 },
       [ApiCall.deleteArchive "gated-vault" (Json.str "a1")])) := by
  refine ⟨?_, fun result name => rfl, ?_⟩
  · intro now m
    constructor
    · rw [List.any_eq_false]
      intro c hc
      rcases processGo_trace hc with h1 | ⟨v, a, rfl⟩
      · exact absurd h1 (List.not_mem_nil c)
      · simp [isVaultDeletion]
    · rw [List.any_eq_false]
      intro c hc
      rcases processGo_trace hc with h1 | ⟨v, a, rfl⟩
      · exact absurd h1 (List.not_mem_nil c)
      · simp [isSleep]
  · have hg : gateSelects 90000
        { job_id := some "job-1", status := some "complete", job_updated := some 0,
          archives := [{ id := Json.str "a1", description := Json.str "",
                         size := Json.num 5 }] } = true := by
      rw [gateSelects_eq_int]; rfl
    simp [process_completed_jobs, processGo, processStep, lookupVault,
      List.find?, hg, delete_vault_contents, update_vault_job, setVault]

/-- C2 (amended): on every store reachable by stage operations, a record in
status "in-progress" or "complete" carries a non-null job_id, and a non-null
job_id occurs only in statuses "in-progress", "complete" or "error".  The
claim's full iff fails on the "error" case (see the counterexample): the
Poller's failure paths keep the stored job_id; only the Initiator's failure
path and the Destroyer clear it. -/
theorem c2_job_ownership {m : Manager} (h : Reachable m) : JobInv m := by
  obtain ⟨ops, hops⟩ := h
  subst hops
  exact jobInv_runOps ops

theorem c2_job_ownership_witness :
    Reachable (runOps [StageOp.scan [["v"]]]) ∧ JobInv (runOps [StageOp.scan [["v"]]]) :=
  ⟨⟨[StageOp.scan [["v"]]], rfl⟩, c2_job_ownership ⟨[StageOp.scan [["v"]]], rfl⟩⟩

/-- C2 fails as stated: after scan, initiate (getting job "job-1"), and a poll
whose describe_job call raises ClientError, the reachable record has status
"error" while job_id is still "job-1" — non-null outside
IN_PROGRESS/COMPLETE, so job_id was not cleared on leaving those states. -/
theorem c2_error_keeps_job_id :
    lookupVault (runOps [StageOp.scan [["v"]],
        StageOp.initiate (fun _ => Except.ok "job-1") 0,
        StageOp.poll (fun _ _ => Except.error "throttled")
          (fun _ _ => Except.ok none) 10]).state "v" =
      some { job_id := some "job-1", status := some "error", job_updated := some 10,
             archives := [] } ∧
    (some "job-1" : Option String) ≠ none :=
  ⟨rfl, Option.some_ne_none _⟩

/-- C3 (amended): the Initiator submits a fresh job exactly for the records
whose job_id is falsy (null or empty) or whose status is "error" or "complete"
(the literal guard `not job_id or status in ["error", "complete"]`).  So
NOT_STARTED and ERROR records are selected as the claim says, but COMPLETE
records — and PENDING_DELETION records, whose job_id was cleared — are selected
and re-initiated too; only records failing the guard (IN_PROGRESS ones holding a
job id) are left untouched. -/
theorem c3_initiator_selection (api : String → Except ClientError String) (now : Int)
    (m : Manager) (v : String) (r : VaultRecord)
    (hnd : (m.state.map (fun p => p.1)).Nodup)
    (h : lookupVault m.state v = some r) :
    lookupVault (initiate_inventory_jobs api now m).state v =
      some (if initSelects r then initTransition (api v) now r else r) := by
  obtain ⟨l1, l2, hsplit, hl1, hl2⟩ := keys_split hnd h
  unfold initiate_inventory_jobs
  rw [hsplit, initGo_append]
  rw [show ∀ mt, initGo api now (v :: l2) mt =
        initGo api now l2 (initStep api now mt v) from fun mt => rfl]
  rw [initGo_other_keys hl2]
  have h1 : lookupVault (initGo api now l1 m).state v = some r := by
    rw [initGo_other_keys hl1]; exact h
  exact initStep_self h1 api now

theorem c3_initiator_selection_witness :
    lookupVault ({ state := [("v", { job_id := some "job-1", status := some "complete", job_updated := some 0, archives := [] })], saves := 0 } : Manager).state "v" =
      some { job_id := some "job-1", status := some "complete", job_updated := some 0, archives := [] } ∧
    lookupVault (initiate_inventory_jobs (fun _ => Except.ok "job-2") 7
        { state := [("v", { job_id := some "job-1", status := some "complete", job_updated := some 0, archives := [] })], saves := 0 }).state "v" =
      some (if initSelects { job_id := some "job-1", status := some "complete", job_updated := some 0, archives := [] } then
              initTransition (Except.ok "job-2") 7 { job_id := some "job-1", status := some "complete", job_updated := some 0, archives := [] }
            else { job_id := some "job-1", status := some "complete", job_updated := some 0, archives := [] }) :=
  ⟨rfl, c3_initiator_selection (fun _ => Except.ok "job-2") 7 _ "v" _ (by decide) rfl⟩

/-- C3 fails as stated: a COMPLETE record holding job "job-1" is selected by the
Initiator guard and a fresh job is submitted, transitioning it back to
"in-progress" with a new job id — a COMPLETE record is not left untouched. -/
theorem c3_complete_reinitiated :
    lookupVault (initiate_inventory_jobs (fun _ => Except.ok "job-2") 50
        { state := [("v", { job_id := some "job-1", status := some "complete", job_updated := some 0, archives := [] })],
          saves := 0 }).state "v" =
      some { job_id := some "job-2", status := some "in-progress", job_updated := some 50, archives := [] } := rfl

/-- C4 (amended): in `get_job_output`, only a ClientError from the remote fetch
transitions the vault to "error".  A body that is not valid JSON makes
`json.loads` raise outside the `except ClientError` clause: the uncaught
exception aborts the invocation and the state is unchanged (no ERROR
transition).  A parsed manifest lacking the "ArchiveList" field is not treated
as an error at all: `inventory.get("ArchiveList", [])` yields an empty list and
the record transitions to "complete" with no archives. -/
theorem c4_output_error_handling
    (output : String → String → Except ClientError (Option Json))
    (now : Int) (m : Manager) (vault_id job_id : String) :
    (output vault_id job_id = Except.ok none →
        get_job_output output now m vault_id job_id = (m, some PyExn.jsonDecodeError)) ∧
    (∀ e : ClientError, output vault_id job_id = Except.error e →
        get_job_output output now m vault_id job_id =
          (update_vault_job m vault_id (some job_id) "error" now, none)) ∧
    (∀ kvs : List (String × Json),
        output vault_id job_id = Except.ok (some (Json.obj kvs)) →
        dictGet kvs "ArchiveList" = none →
        get_job_output output now m vault_id job_id =
          (update_vault_job (update_vault_archives m vault_id [])
             vault_id (some job_id) "complete" now, none)) := by
  refine ⟨?_, ?_, ?_⟩
  · intro h
    unfold get_job_output
    rw [h]
  · intro e h
    unfold get_job_output
    rw [h]
  · intro kvs h hget
    unfold get_job_output
    rw [h]
    simp [pyGetDefault, hget, pyIter, parseArchives]

theorem c4_output_error_handling_witness :
    get_job_output (fun _ _ => Except.ok none) 0 emptyManager "v" "j" =
      (emptyManager, some PyExn.jsonDecodeError) ∧
    get_job_output (fun _ _ => Except.error "denied") 0 emptyManager "v" "j" =
      (update_vault_job emptyManager "v" (some "j") "error" 0, none) ∧
    get_job_output (fun _ _ => Except.ok (some (Json.obj []))) 0 emptyManager "v" "j" =
      (update_vault_job (update_vault_archives emptyManager "v" [])
         "v" (some "j") "complete" 0, none) :=
  ⟨(c4_output_error_handling (fun _ _ => Except.ok none) 0 emptyManager "v" "j").1 rfl,
   (c4_output_error_handling (fun _ _ => Except.error "denied") 0 emptyManager
      "v" "j").2.1 "denied" rfl,
   (c4_output_error_handling (fun _ _ => Except.ok (some (Json.obj []))) 0 emptyManager
      "v" "j").2.2 [] rfl rfl⟩

/-- C4 fails as stated: with an in-progress record whose job describes as
completed and whose output body is not valid JSON, `check_job_status` lets the
JSONDecodeError escape (the invocation halts) instead of transitioning the vault
to "error": the record is left "in-progress" (merely refreshed). -/
theorem c4_malformed_output_raises :
    (check_job_status (fun _ _ => Except.ok true) (fun _ _ => Except.ok none) 5
        { state := [("v", { job_id := some "j", status := some "in-progress",
                            job_updated := some 0, archives := [] })],
          saves := 0 }).2 = some PyExn.jsonDecodeError ∧
    lookupVault (check_job_status (fun _ _ => Except.ok true)
        (fun _ _ => Except.ok none) 5
        { state := [("v", { job_id := some "j", status := some "in-progress",
                            job_updated := some 0, archives := [] })],
          saves := 0 }).1.state "v" =
      some { job_id := some "j", status := some "in-progress", job_updated := some 5,
             archives := [] } :=
  ⟨rfl, rfl⟩

/-- C5: the Retention Gate selects a COMPLETE record carrying a job_updated
timestamp exactly when at least 86400 seconds (24 hours) have elapsed
(the source test `(now - t).total_seconds() / 3600 >= 24`); an unselected
record is left exactly unchanged, and a selected one is destroyed and marked
"pending_deletion". -/
theorem c5_retention_threshold (now : Int) (m : Manager) (v : String)
    (r : VaultRecord) (t : Int)
    (hnd : (m.state.map (fun p => p.1)).Nodup)
    (h : lookupVault m.state v = some r)
    (hs : r.status = some "complete") (ht : r.job_updated = some t) :
    (gateSelects now r = true ↔ 86400 ≤ now - t) ∧
    (gateSelects now r = false →
        lookupVault (process_completed_jobs now m).1.state v = some r) ∧
    (gateSelects now r = true →
        lookupVault (process_completed_jobs now m).1.state v =
          some { r with job_id := none, status := some "pending_deletion",
                        job_updated := some now }) := by
  refine ⟨?_, ?_, ?_⟩
  · unfold gateSelects
    rw [hs, ht]
    simp only [beq_self_eq_true, if_true, decide_eq_true_eq]
    exact gate_hours_iff now t
  · intro hns
    exact processGo_keeps hns _ h
  · intro hsel
    obtain ⟨l1, l2, hsplit, hl1, hl2⟩ := keys_split hnd h
    unfold process_completed_jobs
    rw [hsplit, processGo_append]
    rw [show ∀ mt, processGo now (v :: l2) mt =
          processGo now l2 (processStep now mt v) from fun mt => rfl]
    rw [processGo_other_keys hl2]
    have h1 : lookupVault (processGo now l1 (m, [])).1.state v = some r := by
      rw [processGo_other_keys hl1]; exact h
    exact processStep_self h1 hsel

theorem c5_retention_threshold_witness :
    gateSelects 86400 { job_id := some "j", status := some "complete", job_updated := some 0, archives := [] } = true ∧
    lookupVault (process_completed_jobs 86400
        { state := [("v", { job_id := some "j", status := some "complete", job_updated := some 0, archives := [] })], saves := 0 }).1.state "v" =
      some { job_id := none, status := some "pending_deletion", job_updated := some 86400, archives := [] } := by
  have hc5 := c5_retention_threshold 86400
      { state := [("v", { job_id := some "j", status := some "complete", job_updated := some 0, archives := [] })], saves := 0 }
      "v" { job_id := some "j", status := some "complete", job_updated := some 0, archives := [] }
      0 (by decide) rfl rfl rfl
  have hsel := hc5.1.mpr (by decide)
  exact ⟨hsel, hc5.2.2 hsel⟩

/-- C6: registration is idempotent — `add_vault` on an already-known vault
identifier returns the manager completely unchanged: no second record, no field
reset, no state-file write. -/
theorem c6_add_vault_idempotent (m : Manager) (v : String)
    (h : (lookupVault m.state v).isSome = true) : add_vault m v = m := by
  unfold add_vault
  rw [h]
  simp

theorem c6_add_vault_idempotent_witness :
    (lookupVault ({ state := [("v", { job_id := some "j", status := some "complete", job_updated := some 3, archives := [] })], saves := 2 } : Manager).state "v").isSome = true ∧
    add_vault { state := [("v", { job_id := some "j", status := some "complete", job_updated := some 3, archives := [] })], saves := 2 } "v" =
      { state := [("v", { job_id := some "j", status := some "complete", job_updated := some 3, archives := [] })], saves := 2 } :=
  ⟨rfl, c6_add_vault_idempotent _ "v" rfl⟩

/-- C7: persisting a state mapping with `save_state` and reading the file back
with `load_state` reproduces the identical mapping, field for field (the typed
reading of the persisted JSON document recovers every record exactly). -/
theorem c7_save_load_round_trip (s : StateMap) :
    decodeState (load_state (some (some (save_state s)))) = some s :=
  decodeState_save s

/-- C8: when the state file exists but its contents are not valid JSON,
`load_state` catches the decode error and returns the empty mapping instead of
raising (the model is total: the `some none` file-system case — exists but
malformed — maps to `{}`). -/
theorem c8_malformed_state_resets :
    load_state (some none) = Json.obj [] ∧
    decodeState (load_state (some none)) = some [] :=
  ⟨rfl, rfl⟩

/-- C9: `update_vault_job` and `update_vault_archives` on a vault identifier not
present in the mapping are complete no-ops: the manager (state and save counter,
hence the state file) is returned unchanged and nothing is raised. -/
theorem c9_update_absent_noop (m : Manager) (v : String) (j : Option String)
    (s : String) (t : Int) (a : List ArchiveRef)
    (h : lookupVault m.state v = none) :
    update_vault_job m v j s t = m ∧ update_vault_archives m v a = m := by
  constructor
  · unfold update_vault_job
    rw [h]
  · unfold update_vault_archives
    rw [h]

theorem c9_update_absent_noop_witness :
    lookupVault ({ state := [("a", { job_id := none, status := none, job_updated := none, archives := [] })], saves := 3 } : Manager).state "b" = none ∧
    (update_vault_job { state := [("a", { job_id := none, status := none, job_updated := none, archives := [] })], saves := 3 } "b" (some "j") "error" 4 =
      { state := [("a", { job_id := none, status := none, job_updated := none, archives := [] })], saves := 3 } ∧
     update_vault_archives { state := [("a", { job_id := none, status := none, job_updated := none, archives := [] })], saves := 3 } "b" [] =
      { state := [("a", { job_id := none, status := none, job_updated := none, archives := [] })], saves := 3 }) :=
  ⟨rfl, c9_update_absent_noop _ "b" (some "j") "error" 4 [] rfl⟩

/-- C10: a COMPLETE record whose job_updated is null is skipped by the Retention
Gate: the guard `status == "complete" and job_updated` short-circuits before the
timestamp parse, so (as in the model, where the elapsed-time computation occurs
only under `some t`) the record is never selected and is left exactly
unchanged. -/
theorem c10_null_timestamp_skipped (now : Int) (m : Manager) (v : String)
    (r : VaultRecord) (h : lookupVault m.state v = some r)
    (hs : r.status = some "complete") (hu : r.job_updated = none) :
    gateSelects now r = false ∧
    lookupVault (process_completed_jobs now m).1.state v = some r := by
  have hg : gateSelects now r = false := by
    unfold gateSelects
    rw [hu]
    simp
  exact ⟨hg, processGo_keeps hg _ h⟩

theorem c10_null_timestamp_skipped_witness :
    gateSelects 999999 { job_id := some "j", status := some "complete", job_updated := none, archives := [] } = false ∧
    lookupVault (process_completed_jobs 999999
        { state := [("v", { job_id := some "j", status := some "complete", job_updated := none, archives := [] })], saves := 0 }).1.state "v" =
      some { job_id := some "j", status := some "complete", job_updated := none, archives := [] } :=
  c10_null_timestamp_skipped 999999 _ "v" _ rfl rfl rfl

end Deicer
